import Mathlib

/-!
Verification of the demand-forecasting pipeline of `mia_app.py`.

The pipeline stages embedded here, in source order:
  * `to_excel` (line 53): in-memory spreadsheet export of a named series;
  * `load_data` (line 66): CSV load with date parsing, date index, ascending
    sort, errors caught and turned into a missing result (`none`);
  * `item_data` / `monthly_data` (lines 123, 128): filter by item, select the
    quantity column, resample to month-start buckets by summation;
  * the data-sufficiency check (line 137): fewer than `2 * seasonal_periods`
    monthly points halts the pipeline with a warning;
  * the Holt-Winters forecast call (lines 157-168) and the post-processing
    (line 171): `forecast.apply(lambda x: max(0, round(x)))`.

Numeric values are embedded as `Rat`; Python's built-in `round` is embedded
as round-half-to-even (`pyRound`), which is what Python 3 computes.
-/

/-- A calendar date as produced by date parsing: year, month (1-12),
day (1-31). -/
structure Date where
  year : Int
  month : Nat
  day : Nat
deriving Repr, DecidableEq

/-- Linear key giving chronological order on valid dates: the parser only
produces `month ≤ 12 < 16` and `day ≤ 31 < 32`, so `month * 32 + day < 512`
and the key orders dates lexicographically by (year, month, day). -/
def Date.key (d : Date) : Int :=
  d.year * 512 + d.month * 32 + d.day

/-- Month bucket of a date: months since year 0, the index of the
month-start (`MS`) bucket the date falls into. -/
def monthIndex (d : Date) : Int :=
  d.year * 12 + ((d.month : Int) - 1)

/-- Value of a decimal digit character, `none` for a non-digit. -/
def digitVal (c : Char) : Option Nat :=
  if '0' ≤ c ∧ c ≤ '9' then some (c.toNat - '0'.toNat) else none

/-- Accumulating decimal reading of a digit string. -/
def digitsToNatAux : Nat → List Char → Option Nat
  | acc, [] => some acc
  | acc, c :: cs =>
    match digitVal c with
    | some d => digitsToNatAux (acc * 10 + d) cs
    | none => none

/-- Decimal reading of a nonempty digit string. -/
def digitsToNat (cs : List Char) : Option Nat :=
  match cs with
  | [] => none
  | _ => digitsToNatAux 0 cs

/-- Split a character list on a separator character. -/
def splitOnChar (sep : Char) : List Char → List (List Char)
  | [] => [[]]
  | c :: cs =>
    let r := splitOnChar sep cs
    if c = sep then [] :: r
    else
      match r with
      | [] => [[c]]
      | g :: gs => (c :: g) :: gs

/-- Modelled from the spec: the date parsing done by the external CSV-reading
library (`pd.read_csv(..., parse_dates=["data"])` is not code of this
repository). The spec requires the `data` column to hold an ISO-parseable
date, so an `YYYY-MM-DD` string with a valid month and day parses and
anything else fails. -/
def parseDate (s : String) : Option Date :=
  match splitOnChar '-' s.data with
  | [y, m, d] =>
    match digitsToNat y, digitsToNat m, digitsToNat d with
    | some yn, some mn, some dn =>
      if 1 ≤ mn ∧ mn ≤ 12 ∧ 1 ≤ dn ∧ dn ≤ 31 then
        some ⟨(yn : Int), mn, dn⟩
      else none
    | _, _, _ => none
  | _ => none

/-- An uploaded CSV file as the reading library sees it: a header row of
column names and the data records, each a row of raw cell strings. -/
structure CSVFile where
  header : List String
  records : List (List String)
deriving Repr, DecidableEq

/-- A loaded table: the date index paired with each row's remaining cells,
plus the names of the remaining (non-index) columns. This is the state of
the dataframe after `parse_dates=["data"]` and `set_index("data")`. -/
structure Table where
  cols : List String
  rows : List (Date × List String)
deriving Repr, DecidableEq

/-- Parse the date cell of every record at column position `i`, removing it
from the remaining cells; a missing cell or an unparseable date is a read
error. -/
def parseRows (i : Nat) : List (List String) → Except String (List (Date × List String))
  | [] => Except.ok []
  | r :: rs =>
    match r[i]? with
    | none => Except.error "missing cell"
    | some c =>
      match parseDate c with
      | none => Except.error "unparseable date"
      | some d =>
        match parseRows i rs with
        | Except.error e => Except.error e
        | Except.ok rest => Except.ok ((d, r.eraseIdx i) :: rest)

/-- `pd.read_csv(uploaded_file, parse_dates=["data"])` followed by
`set_index("data")` (lines 71-72): locate the `data` column (its absence is
an error), parse every date cell, and index the rows by date. -/
def read_csv (f : CSVFile) : Except String Table :=
  match f.header.indexOf? "data" with
  | none => Except.error "Missing column data"
  | some i =>
    match parseRows i f.records with
    | Except.error e => Except.error e
    | Except.ok rows => Except.ok { cols := f.header.eraseIdx i, rows := rows }

/-- Row order used by `sort_index` (line 73): ascending date. -/
def rowLe (a b : Date × List String) : Prop :=
  a.1.key ≤ b.1.key

instance : DecidableRel rowLe := fun a b => Int.decLe a.1.key b.1.key

instance : IsTotal (Date × List String) rowLe :=
  ⟨fun a b => Int.le_total a.1.key b.1.key⟩

instance : IsTrans (Date × List String) rowLe :=
  ⟨fun _ _ _ h h' => le_trans h h'⟩

/-- `load_data` (lines 66-77): read the CSV, set the date index, sort it
ascending; any failure inside the stage is caught, reported with
`st.error`, and a missing result (`None`) is returned instead. -/
def load_data (f : CSVFile) : Option Table :=
  match read_csv f with
  | Except.ok t => some { t with rows := List.insertionSort rowLe t.rows }
  | Except.error _ => none

/-- One row of a loaded table once the `item` and `quantità` columns are
read as a string identifier and a numeric quantity, the shape the
aggregation stage (lines 123-128) consumes. -/
structure Rec where
  date : Date
  item : String
  qty : Rat
deriving Repr, DecidableEq

/-- `item_data = df[df["item"] == selected_item]["quantità"]` (line 123):
keep the rows of the selected item and select the quantity column, keeping
the date index. -/
def item_data (rows : List Rec) (sel : String) : List (Date × Rat) :=
  (rows.filter fun r => r.item == sel).map fun r => (r.date, r.qty)

/-- `item_data.resample("MS").sum().fillna(0)` (line 128): one month-start
bucket for every month from the first to the last date, each holding the
sum of the quantities falling in it; a bucket with no source rows holds the
empty sum `0` (so the `fillna(0)` is already absorbed). An empty series
resamples to an empty series. -/
def resampleMS : List (Date × Rat) → List (Int × Rat)
  | [] => []
  | x :: xs =>
    let lo := ((x :: xs).map fun p => monthIndex p.1).foldl min (monthIndex x.1)
    let hi := ((x :: xs).map fun p => monthIndex p.1).foldl max (monthIndex x.1)
    (List.range (hi - lo + 1).toNat).map fun (k : Nat) =>
      (lo + (k : Int),
        (((x :: xs).filter fun p => monthIndex p.1 == lo + (k : Int)).map Prod.snd).sum)

/-- `monthly_data` (line 128) for a selected item. -/
def monthly_data (rows : List Rec) (sel : String) : List (Int × Rat) :=
  resampleMS (item_data rows sel)

/-- Python 3's built-in `round` on the exact value of its argument:
round-half-to-even (banker's rounding). -/
def pyRound (x : Rat) : Int :=
  let f := ⌊x⌋
  let r := x - f
  if r < 1 / 2 then f
  else if 1 / 2 < r then f + 1
  else if f % 2 = 0 then f else f + 1

/-- Post-processing of one forecast value (line 171):
`max(0, round(x))`. -/
def postProcess (x : Rat) : Int :=
  max 0 (pyRound x)

/-- `forecast.apply(lambda x: max(0, round(x)))` (line 171). -/
def postProcessSeries (xs : List Rat) : List Int :=
  xs.map postProcess

/-- Trend / seasonal mode of the Holt-Winters model (lines 113-114):
additive, multiplicative, or absent. -/
inductive HWMode
  | add
  | mul
  | off
deriving Repr, DecidableEq

/-- Modelled from the spec: the Holt-Winters projection of the external
statistics library (`fit.forecast(periods_to_forecast)`, line 168, is not
code of this repository). After a successful fit the engine "projects the
horizon forward": one value per future month, computed from the fitted
level `l`, trend `b` and seasonal state `s` by the standard Holt-Winters
forecast equations for the chosen trend and seasonal modes. -/
def hwForecast (tmode smode : HWMode) (l b : Rat) (s : List Rat) (h : Nat) : List Rat :=
  (List.range h).map fun i =>
    let base :=
      match tmode with
      | HWMode.add => l + (i + 1 : Nat) * b
      | HWMode.mul => l * b ^ (i + 1)
      | HWMode.off => l
    match smode with
    | HWMode.add => base + s.getD (i % s.length) 0
    | HWMode.mul => base * s.getD (i % s.length) 0
    | HWMode.off => base

/-- Outcome of the forecasting stage for one monthly series. -/
inductive FitOutcome
  | insufficient
  | fitError (e : String)
  | forecastReady (fc : List Int)
deriving Repr, DecidableEq

/-- The forecasting stage (lines 137-171): if the monthly series has fewer
than `2 * seasonal_periods` points the pipeline stops with the
data-insufficiency warning before any fit (lines 137-139); otherwise the
model is fitted and projected (the external fitting call is abstracted as
the `fit` argument, its failure as `Except.error`, matching the
`try`/`except` of lines 155-216), and on success the forecast is
post-processed (line 171). -/
def forecastPipeline (monthly : List (Int × Rat)) (sp : Nat) (h : Nat)
    (fit : List Rat → Nat → Except String (List Rat)) : FitOutcome :=
  if monthly.length < 2 * sp then FitOutcome.insufficient
  else
    match fit (monthly.map Prod.snd) h with
    | Except.error e => FitOutcome.fitError e
    | Except.ok raw => FitOutcome.forecastReady (postProcessSeries raw)

/-- A named series with a date index, the shape handed to the exporter
(lines 199-200): the series name, the index label, and the entries. -/
structure NamedSeries where
  name : String
  indexName : String
  entries : List (Date × Int)
deriving Repr, DecidableEq

/-- Modelled from the spec: the in-memory spreadsheet binary produced by the
external writer (`pd.ExcelWriter` / `openpyxl`, not code of this
repository), kept at the level of its content: one sheet, a header row, and
typed cells. -/
structure Spreadsheet where
  sheetName : String
  headerRow : List String
  cells : List (Date × Int)
deriving Repr, DecidableEq

/-- `to_excel` (lines 53-62): write the dataframe with its index
(`index=True`) to the single sheet `Previsione`; the header row labels the
index column and the values column. -/
def to_excel (s : NamedSeries) : Spreadsheet :=
  { sheetName := "Previsione"
    headerRow := [s.indexName, s.name]
    cells := s.entries }

/-- Modelled from the spec: reading the exported spreadsheet back (the
round-trip direction, also external library behavior): the first header
cell labels the index, the second the values, and the cells give the
entries. -/
def read_excel (wb : Spreadsheet) : NamedSeries :=
  { name := wb.headerRow.getD 1 ""
    indexName := wb.headerRow.getD 0 ""
    entries := wb.cells }

/-! ### Helper lemmas -/

/-- `pyRound` of a nonnegative number is nonnegative. -/
theorem pyRound_nonneg {x : Rat} (hx : 0 ≤ x) : 0 ≤ pyRound x := by
  have hf : (0 : Int) ≤ ⌊x⌋ := Int.le_floor.2 (by exact_mod_cast hx)
  unfold pyRound
  dsimp only
  split
  · exact hf
  · split
    · omega
    · split <;> omega

/-- `pyRound` of a nonpositive number is nonpositive. -/
theorem pyRound_nonpos {x : Rat} (hx : x < 0) : pyRound x ≤ 0 := by
  have hf : ⌊x⌋ ≤ -1 := by
    have : ⌊x⌋ < 0 := Int.floor_lt.2 (by exact_mod_cast hx)
    omega
  unfold pyRound
  dsimp only
  split
  · omega
  · split
    · omega
    · split <;> omega

/-- `pyRound 0 = 0`. -/
theorem pyRound_zero : pyRound 0 = 0 := by
  unfold pyRound
  norm_num

/-! ### C1 -/

/-- C1. Every value of the post-processed forecast series is a non-negative
integer (the codomain of the post-processing is `Int`), and rounding then
clamping, as line 171 computes it, agrees with clamping the raw value to
zero then rounding, as the claim reads. -/
theorem postProcessSeries_nonneg (xs : List Rat) :
    (∀ v ∈ postProcessSeries xs, 0 ≤ v) ∧
    ∀ x : Rat, postProcess x = pyRound (max 0 x) := by
  constructor
  · intro v hv
    rcases List.mem_map.1 hv with ⟨x, _, rfl⟩
    exact le_max_left 0 (pyRound x)
  · intro x
    rcases le_or_lt 0 x with hx | hx
    · rw [max_eq_right hx, postProcess, max_eq_right (pyRound_nonneg hx)]
    · rw [max_eq_left hx.le, postProcess, pyRound_zero,
        max_eq_left (pyRound_nonpos hx)]

/-- C1 witness: the post-processed value of the raw forecast 5/2 is
non-negative. -/
theorem postProcessSeries_nonneg_witness : (0 : Int) ≤ postProcess (5 / 2) :=
  (postProcessSeries_nonneg [5 / 2]).1 (postProcess (5 / 2))
    (by simp [postProcessSeries])

/-! ### C2 -/

/-- C2. For every horizon `h` with `1 ≤ h ≤ 36` (the range the slider of
line 108 can produce) and every fitted state, the Holt-Winters projection
has exactly `h` points, before and after post-processing. -/
theorem hwForecast_length_eq_horizon (tm sm : HWMode) (l b : Rat) (s : List Rat)
    (h : Nat) (_h1 : 1 ≤ h) (_h2 : h ≤ 36) :
    (hwForecast tm sm l b s h).length = h ∧
    (postProcessSeries (hwForecast tm sm l b s h)).length = h := by
  constructor <;> simp [hwForecast, postProcessSeries]

/-- C2 witness: a 12-month forecast from an additive fitted state has 12
points. -/
theorem hwForecast_length_eq_horizon_witness :
    (hwForecast HWMode.add HWMode.add 10 1 [1, 2] 12).length = 12 ∧
    (postProcessSeries (hwForecast HWMode.add HWMode.add 10 1 [1, 2] 12)).length = 12 :=
  hwForecast_length_eq_horizon HWMode.add HWMode.add 10 1 [1, 2] 12
    (by decide) (by decide)

/-! ### C3 -/

/-- C3. A monthly series with fewer than `2 * seasonal_periods` points makes
the pipeline halt with the data-insufficiency outcome before the fit; with
at least `2 * seasonal_periods` points the pipeline continues to the fit,
whose failure or forecast is then the outcome. -/
theorem forecastPipeline_sufficiency_gate (monthly : List (Int × Rat))
    (sp h : Nat) (fit : List Rat → Nat → Except String (List Rat)) :
    (monthly.length < 2 * sp →
      forecastPipeline monthly sp h fit = FitOutcome.insufficient) ∧
    (2 * sp ≤ monthly.length →
      (∀ e, fit (monthly.map Prod.snd) h = Except.error e →
        forecastPipeline monthly sp h fit = FitOutcome.fitError e) ∧
      (∀ raw, fit (monthly.map Prod.snd) h = Except.ok raw →
        forecastPipeline monthly sp h fit
          = FitOutcome.forecastReady (postProcessSeries raw))) := by
  refine ⟨fun hlt => ?_, fun hge => ⟨fun e he => ?_, fun raw hr => ?_⟩⟩
  · simp [forecastPipeline, hlt]
  · simp [forecastPipeline, Nat.not_lt.2 hge, he]
  · simp [forecastPipeline, Nat.not_lt.2 hge, hr]

/-- C3 witness: a 1-month series with seasonal_periods 1 halts as
insufficient; a 2-month series reaches the fit and yields its forecast. -/
theorem forecastPipeline_sufficiency_gate_witness :
    forecastPipeline [(0, 1)] 1 1 (fun _ _ => Except.ok [1])
      = FitOutcome.insufficient ∧
    forecastPipeline [(0, 1), (1, 2)] 1 1 (fun _ _ => Except.ok [1])
      = FitOutcome.forecastReady (postProcessSeries [1]) :=
  ⟨(forecastPipeline_sufficiency_gate [(0, 1)] 1 1 (fun _ _ => Except.ok [1])).1
      (by decide),
    ((forecastPipeline_sufficiency_gate [(0, 1), (1, 2)] 1 1
      (fun _ _ => Except.ok [1])).2 (by decide)).2 [1] rfl⟩

/-! ### C7 -/

/-- C7 counterexample: 5/2 lies exactly halfway between 2 and 3, yet the
post-processing of line 171 yields 2, not the away-from-zero value 3. -/
theorem pyRound_tie_not_away_from_zero :
    (5 / 2 : Rat) - (⌊(5 / 2 : Rat)⌋ : Rat) = 1 / 2 ∧
    postProcess (5 / 2) = 2 ∧ postProcess (5 / 2) ≠ 3 := by
  refine ⟨by norm_num, ?_, ?_⟩ <;> norm_num [postProcess, pyRound]

/-- C7 amended: a raw forecast value lying exactly halfway between two
integers is rounded half-to-even (Python 3 `round`): the result is the even
one of the two neighbouring integers. -/
theorem pyRound_half_to_even (x : Rat) (h : x - (⌊x⌋ : Rat) = 1 / 2) :
    pyRound x % 2 = 0 ∧ (pyRound x = ⌊x⌋ ∨ pyRound x = ⌊x⌋ + 1) := by
  unfold pyRound
  dsimp only
  rw [h]
  norm_num
  rcases Int.emod_two_eq_zero_or_one ⌊x⌋ with h2 | h2 <;> simp [h2] <;> omega

/-- C7 amended witness: at the tie 5/2 the rounding yields the even
neighbour 2. -/
theorem pyRound_half_to_even_witness :
    (5 / 2 : Rat) - (⌊(5 / 2 : Rat)⌋ : Rat) = 1 / 2 ∧
    (pyRound (5 / 2) % 2 = 0 ∧
      (pyRound (5 / 2) = ⌊(5 / 2 : Rat)⌋ ∨ pyRound (5 / 2) = ⌊(5 / 2 : Rat)⌋ + 1)) :=
  ⟨by norm_num, pyRound_half_to_even (5 / 2) (by norm_num)⟩

/-! ### C8 -/

/-- C8. Exporting a named date-indexed series to the in-memory spreadsheet
and reading the spreadsheet back yields the same series — in particular the
same date index and the same values — and the export writes the single
sheet `Previsione`. Determinism is intrinsic: the export is a pure
function of the series. -/
theorem to_excel_roundtrip (s : NamedSeries) :
    read_excel (to_excel s) = s ∧
    (read_excel (to_excel s)).entries.map Prod.fst = s.entries.map Prod.fst ∧
    (read_excel (to_excel s)).entries.map Prod.snd = s.entries.map Prod.snd ∧
    (to_excel s).sheetName = "Previsione" := by
  cases s
  exact ⟨rfl, rfl, rfl, rfl⟩

/-! ### Loader lemmas and C4, C6, C10 -/

/-- If some record's date cell is missing or unparseable, row parsing
errors. -/
theorem parseRows_error_of_bad_row (i : Nat) (rs : List (List String))
    (r : List String) (hr : r ∈ rs)
    (hbad : ∀ c, r[i]? = some c → parseDate c = none) :
    ∃ e, parseRows i rs = Except.error e := by
  induction rs with
  | nil => cases hr
  | cons a tl ih =>
    rcases List.mem_cons.1 hr with rfl | htl
    · cases hc : r[i]? with
      | none => exact ⟨"missing cell", by simp [parseRows, hc]⟩
      | some c =>
        exact ⟨"unparseable date", by simp [parseRows, hc, hbad c hc]⟩
    · cases hc : a[i]? with
      | none => exact ⟨"missing cell", by simp [parseRows, hc]⟩
      | some c =>
        cases hd : parseDate c with
        | none => exact ⟨"unparseable date", by simp [parseRows, hc, hd]⟩
        | some d =>
          obtain ⟨e, he⟩ := ih htl
          exact ⟨e, by simp [parseRows, hc, hd, he]⟩

/-- The loader either yields a table whose rows are sorted ascending by the
date index, or yields the missing result. -/
theorem load_data_cases (f : CSVFile) :
    (∃ t, load_data f = some t ∧ t.rows.Sorted rowLe) ∨ load_data f = none := by
  unfold load_data
  cases hrc : read_csv f with
  | ok t => exact Or.inl ⟨_, rfl, List.sorted_insertionSort rowLe t.rows⟩
  | error e => exact Or.inr rfl

/-- C4 counterexample: a CSV without the required `quantità` column (and
hence outside the documented schema) still loads successfully — the loader
does not fail with a load error when `item` or `quantità` is absent. -/
theorem load_data_missing_quantity_col_loads :
    load_data ⟨["data", "item"], [["2021-01-05", "A"]]⟩ ≠ none := by decide

/-- C4 amended: the loader fails with a load error (reported, `none`
returned, no partial result) when the `data` column is absent or some date
cell is missing or unparseable; the presence of `item` and `quantità` is
not checked by the loader, their absence surfaces only in later stages. -/
theorem load_data_error_conditions (f : CSVFile) :
    ("data" ∉ f.header → load_data f = none) ∧
    (∀ i, f.header.indexOf? "data" = some i →
      ∀ r ∈ f.records, (∀ c, r[i]? = some c → parseDate c = none) →
        load_data f = none) := by
  constructor
  · intro hmem
    have hnone : f.header.indexOf? "data" = none :=
      List.indexOf?_eq_none_iff.2 fun x hx => by
        simp only [beq_iff_eq]
        exact fun hEq => hmem (hEq ▸ hx)
    simp [load_data, read_csv, hnone]
  · intro i hidx r hr hbad
    obtain ⟨e, he⟩ := parseRows_error_of_bad_row i f.records r hr hbad
    simp [load_data, read_csv, hidx, he]

/-- C4 witness: a CSV whose only date cell is unparseable makes the loader
return the missing result. -/
theorem load_data_error_conditions_witness :
    load_data ⟨["data"], [["garbage"]]⟩ = none :=
  (load_data_error_conditions ⟨["data"], [["garbage"]]⟩).2 0 (by decide)
    ["garbage"] (by decide)
    (fun c hc => by
      have : c = "garbage" := by
        simpa using hc.symm
      subst this
      decide)

/-- C6. Whenever the loader returns a table, its date index is sorted
ascending (non-decreasing). -/
theorem load_data_index_sorted (f : CSVFile) (t : Table)
    (h : load_data f = some t) : t.rows.Sorted rowLe := by
  rcases load_data_cases f with ⟨t', ht', hs⟩ | hnone
  · rw [h] at ht'
    cases ht'
    exact hs
  · rw [h] at hnone
    cases hnone

/-- C6 witness: a concrete two-row CSV loads to a table whose rows the
theorem shows to be sorted by date. -/
theorem load_data_index_sorted_witness :
    load_data ⟨["data", "item"], [["2021-03-05", "A"], ["2021-01-02", "B"]]⟩
        = some ⟨["item"], [(⟨2021, 1, 2⟩, ["B"]), (⟨2021, 3, 5⟩, ["A"])]⟩ ∧
      List.Sorted rowLe [((⟨2021, 1, 2⟩ : Date), ["B"]), (⟨2021, 3, 5⟩, ["A"])] :=
  ⟨by decide,
    load_data_index_sorted ⟨["data", "item"], [["2021-03-05", "A"], ["2021-01-02", "B"]]⟩
      ⟨["item"], [(⟨2021, 1, 2⟩, ["B"]), (⟨2021, 3, 5⟩, ["A"])]⟩ (by decide)⟩

/-- C10. For every input the loader is total and exception-free: it either
returns a date-indexed table sorted ascending or returns the missing
result `none` (after reporting the error), never anything else. -/
theorem load_data_no_exception (f : CSVFile) :
    (∃ t, load_data f = some t ∧ t.rows.Sorted rowLe) ∨ load_data f = none :=
  load_data_cases f

/-! ### Aggregation lemmas and C5, C9 -/

/-- A left fold by `min` is at most its initial value. -/
theorem foldl_min_le (l : List Int) (a : Int) : l.foldl min a ≤ a := by
  induction l generalizing a with
  | nil => exact le_refl a
  | cons x xs ih => exact le_trans (ih (min a x)) (min_le_left a x)

/-- A left fold by `min` is at most every list element. -/
theorem foldl_min_le_mem (l : List Int) (a b : Int) (hb : b ∈ l) :
    l.foldl min a ≤ b := by
  induction l generalizing a with
  | nil => cases hb
  | cons x xs ih =>
    rcases List.mem_cons.1 hb with rfl | hxs
    · exact le_trans (foldl_min_le xs (min a b)) (min_le_right a b)
    · exact ih (min a x) hxs

/-- A left fold by `max` is at least its initial value. -/
theorem le_foldl_max (l : List Int) (a : Int) : a ≤ l.foldl max a := by
  induction l generalizing a with
  | nil => exact le_refl a
  | cons x xs ih => exact le_trans (le_max_left a x) (ih (max a x))

/-- A left fold by `max` is at least every list element. -/
theorem mem_le_foldl_max (l : List Int) (a b : Int) (hb : b ∈ l) :
    b ≤ l.foldl max a := by
  induction l generalizing a with
  | nil => cases hb
  | cons x xs ih =>
    rcases List.mem_cons.1 hb with rfl | hxs
    · exact le_trans (le_max_right a b) (le_foldl_max xs (max a b))
    · exact ih (max a x) hxs

/-- Sum of a function mapped over `List.range` as a `Finset` sum. -/
theorem sum_map_range (n : Nat) (f : Nat → Rat) :
    ((List.range n).map f).sum = ∑ k in Finset.range n, f k := by
  induction n with
  | zero => simp
  | succ n ih => rw [List.range_succ, List.map_append, List.sum_append,
      Finset.sum_range_succ, ih, List.map_singleton, List.sum_singleton]

/-- Summing, over a month window covering `m`, the indicator of the single
month `m` yields the value at `m`. -/
theorem sum_range_ite_single (n : Nat) (lo m : Int) (v : Rat)
    (h1 : lo ≤ m) (h2 : m < lo + n) :
    (∑ k in Finset.range n, if m = lo + (k : Int) then v else 0) = v := by
  have hk : (m - lo).toNat ∈ Finset.range n := by
    rw [Finset.mem_range]
    omega
  rw [Finset.sum_eq_single_of_mem ((m - lo).toNat) hk]
  · rw [if_pos (by omega)]
  · intro b _ hbne
    apply if_neg
    intro hEq
    exact hbne (by omega)

/-- Bucketing a series into the month window `[lo, lo + n)` that covers all
of its dates and summing each bucket preserves the total sum. -/
theorem bucket_sum (ys : List (Date × Rat)) (lo : Int) (n : Nat)
    (hb : ∀ p ∈ ys, lo ≤ monthIndex p.1 ∧ monthIndex p.1 < lo + n) :
    ((List.range n).map fun (k : Nat) =>
        ((ys.filter fun p => monthIndex p.1 == lo + (k : Int)).map Prod.snd).sum).sum
      = (ys.map Prod.snd).sum := by
  induction ys with
  | nil => simp
  | cons y ys ih =>
    have hy := hb y (List.mem_cons_self y ys)
    have hb' : ∀ p ∈ ys, lo ≤ monthIndex p.1 ∧ monthIndex p.1 < lo + n :=
      fun p hp => hb p (List.mem_cons_of_mem y hp)
    have ihs := ih hb'
    rw [sum_map_range] at ihs ⊢
    have hsplit : ∀ k ∈ Finset.range n,
        ((List.filter (fun p => monthIndex p.1 == lo + (k : Int)) (y :: ys)).map
            Prod.snd).sum
          = (if monthIndex y.1 = lo + (k : Int) then y.2 else 0)
            + ((ys.filter fun p => monthIndex p.1 == lo + (k : Int)).map
                Prod.snd).sum := by
      intro k _
      rw [List.filter_cons]
      by_cases hc : monthIndex y.1 = lo + (k : Int)
      · simp [hc]
      · simp [hc]
    rw [Finset.sum_congr rfl hsplit, Finset.sum_add_distrib,
      sum_range_ite_single n lo (monthIndex y.1) y.2 hy.1 hy.2, ihs,
      List.map_cons, List.sum_cons]

/-- The quantity column of the item-filtered series restricted to one month
window, expressed directly over the loaded rows. -/
theorem item_month_filter (rows : List Rec) (sel : String) (m : Int) :
    ((item_data rows sel).filter fun p => monthIndex p.1 == m).map Prod.snd
      = (rows.filter fun r => r.item == sel && monthIndex r.date == m).map
          Rec.qty := by
  induction rows with
  | nil => rfl
  | cons r rs ih =>
    by_cases h1 : r.item = sel
    · by_cases h2 : monthIndex r.date = m
      · simp only [item_data, List.filter_cons, List.map_cons, h1, h2,
          beq_self_eq_true, if_pos, Bool.and_self] at ih ⊢
        simpa using ih
      · simp only [item_data, List.filter_cons, List.map_cons, h1, h2,
          beq_self_eq_true] at ih ⊢
        simpa [h2] using ih
    · simp only [item_data, List.filter_cons, List.map_cons] at ih ⊢
      simpa [h1] using ih

/-- The resampled series sums to the sum of its source series. -/
theorem resampleMS_total (ys : List (Date × Rat)) :
    ((resampleMS ys).map Prod.snd).sum = (ys.map Prod.snd).sum := by
  cases ys with
  | nil => rfl
  | cons x xs =>
    unfold resampleMS
    rw [List.map_map]
    set lo := ((x :: xs).map fun p => monthIndex p.1).foldl min (monthIndex x.1)
      with hlo
    set hi := ((x :: xs).map fun p => monthIndex p.1).foldl max (monthIndex x.1)
      with hhi
    have hlo_le : lo ≤ monthIndex x.1 := foldl_min_le _ _
    have hle_hi : monthIndex x.1 ≤ hi := le_foldl_max _ _
    have hb : ∀ p ∈ x :: xs,
        lo ≤ monthIndex p.1 ∧ monthIndex p.1 < lo + ((hi - lo + 1).toNat : Int) := by
      intro p hp
      have hmem : monthIndex p.1 ∈ (x :: xs).map fun q => monthIndex q.1 :=
        List.mem_map_of_mem _ hp
      refine ⟨foldl_min_le_mem _ _ _ hmem, ?_⟩
      have : monthIndex p.1 ≤ hi := mem_le_foldl_max _ _ _ hmem
      omega
    exact bucket_sum (x :: xs) lo ((hi - lo + 1).toNat) hb

/-- C9. Monthly aggregation preserves the total: the monthly series of an
item sums to the sum of the item's quantities over all loaded rows. -/
theorem monthly_data_sum_eq_item_total (rows : List Rec) (sel : String) :
    ((monthly_data rows sel).map Prod.snd).sum
      = ((rows.filter fun r => r.item == sel).map Rec.qty).sum := by
  have h2 : ((rows.filter fun r => r.item == sel).map Rec.qty)
      = (item_data rows sel).map Prod.snd := by
    unfold item_data
    rw [List.map_map]
    rfl
  rw [monthly_data, resampleMS_total, h2]

/-- Structure of the resampled series of a nonempty source: a nonempty run
of consecutive month buckets starting at some month `lo`, each holding the
sum of the source values falling in it. -/
theorem resampleMS_cons_spec (x : Date × Rat) (xs : List (Date × Rat)) :
    ∃ lo : Int, ∃ n : Nat, 1 ≤ n ∧
      resampleMS (x :: xs)
        = (List.range n).map fun (k : Nat) =>
            (lo + (k : Int),
              (((x :: xs).filter fun p => monthIndex p.1 == lo + (k : Int)).map
                  Prod.snd).sum) := by
  refine ⟨((x :: xs).map fun p => monthIndex p.1).foldl min (monthIndex x.1),
    ((((x :: xs).map fun p => monthIndex p.1).foldl max (monthIndex x.1))
      - (((x :: xs).map fun p => monthIndex p.1).foldl min (monthIndex x.1)) + 1).toNat,
    ?_, rfl⟩
  have h1 : ((x :: xs).map fun p => monthIndex p.1).foldl min (monthIndex x.1)
      ≤ monthIndex x.1 := foldl_min_le _ _
  have h2 : monthIndex x.1
      ≤ ((x :: xs).map fun p => monthIndex p.1).foldl max (monthIndex x.1) :=
    le_foldl_max _ _
  omega

/-- C5. For a selected item present in the table, the monthly series is
nonempty, its month index runs in consecutive one-month steps from its
first bucket, every bucket holds the sum of the selected item's quantities
falling in that calendar month, and a bucket no row of the item falls in
holds zero. -/
theorem monthly_data_regular (rows : List Rec) (sel : String)
    (hne : item_data rows sel ≠ []) :
    monthly_data rows sel ≠ [] ∧
    (∃ lo : Int, (monthly_data rows sel).map Prod.fst
        = (List.range (monthly_data rows sel).length).map
            fun (k : Nat) => lo + (k : Int)) ∧
    (∀ p ∈ monthly_data rows sel,
      p.2 = ((rows.filter fun r =>
          r.item == sel && monthIndex r.date == p.1).map Rec.qty).sum) ∧
    (∀ p ∈ monthly_data rows sel,
      (∀ r ∈ rows, r.item = sel → monthIndex r.date ≠ p.1) → p.2 = 0) := by
  obtain ⟨x, xs, hxx⟩ : ∃ a l, item_data rows sel = a :: l := by
    cases hh : item_data rows sel with
    | nil => exact absurd hh hne
    | cons a l => exact ⟨a, l, rfl⟩
  obtain ⟨lo, n, hn, hspec⟩ := resampleMS_cons_spec x xs
  have hmd : monthly_data rows sel
      = (List.range n).map fun (k : Nat) =>
          (lo + (k : Int),
            (((x :: xs).filter fun p => monthIndex p.1 == lo + (k : Int)).map
                Prod.snd).sum) := by
    rw [monthly_data, hxx, hspec]
  have h3 : ∀ p ∈ monthly_data rows sel,
      p.2 = ((rows.filter fun r =>
          r.item == sel && monthIndex r.date == p.1).map Rec.qty).sum := by
    intro p hp
    rw [hmd] at hp
    obtain ⟨k, _, rfl⟩ := List.mem_map.1 hp
    show (((x :: xs).filter fun q => monthIndex q.1 == lo + (k : Int)).map
        Prod.snd).sum = _
    rw [← hxx, item_month_filter]
  refine ⟨?_, ⟨lo, ?_⟩, h3, ?_⟩
  · rw [hmd]
    intro hcon
    have hlen := congrArg List.length hcon
    simp only [List.length_map, List.length_range, List.length_nil] at hlen
    omega
  · rw [hmd, List.map_map, List.length_map, List.length_range]
    rfl
  · intro p hp hno
    rw [h3 p hp]
    have hfil : (rows.filter fun r =>
        r.item == sel && monthIndex r.date == p.1) = [] := by
      rw [List.filter_eq_nil_iff]
      intro r hr
      simp only [Bool.and_eq_true, beq_iff_eq, not_and]
      exact hno r hr
    rw [hfil]
    rfl

/-- C5 witness: the single-row table of item A is aggregated into a
nonempty, consecutively indexed monthly series with the stated bucket
sums. -/
theorem monthly_data_regular_witness :
    monthly_data [⟨⟨2021, 1, 5⟩, "A", 3⟩] "A" ≠ [] ∧
    (∃ lo : Int, (monthly_data [⟨⟨2021, 1, 5⟩, "A", 3⟩] "A").map Prod.fst
        = (List.range (monthly_data [⟨⟨2021, 1, 5⟩, "A", 3⟩] "A").length).map
            fun (k : Nat) => lo + (k : Int)) ∧
    (∀ p ∈ monthly_data [⟨⟨2021, 1, 5⟩, "A", 3⟩] "A",
      p.2 = (([⟨⟨2021, 1, 5⟩, "A", 3⟩] : List Rec).filter (fun r =>
          r.item == "A" && monthIndex r.date == p.1) |>.map Rec.qty).sum) ∧
    (∀ p ∈ monthly_data [⟨⟨2021, 1, 5⟩, "A", 3⟩] "A",
      (∀ r ∈ ([⟨⟨2021, 1, 5⟩, "A", 3⟩] : List Rec),
          r.item = "A" → monthIndex r.date ≠ p.1) → p.2 = 0) :=
  monthly_data_regular [⟨⟨2021, 1, 5⟩, "A", 3⟩] "A" (by decide)
